import Mathlib

/-!
Verification of the DeepSearch backend retrieval pipeline.

Shallow embedding of the core functions of the repository:
  * `src/services/vectorDbService.js` — `queryEmbeddings`, `upsertVectors`,
    `deleteVectorsByDocumentId` (Pinecone index modelled as a list of stored
    vectors; similarity scoring is a parameter, as the provider computes it).
  * `src/utils/fileProcessor.js` — `chunkText` together with the JavaScript
    string primitives it uses (sentence regex, `split(/\s+/)`, `trim`,
    `slice(-overlap)`).
  * `src/services/aiService.js` — the response-sanitization pipeline of
    `chatWithPerplexity`/`generateAnswer` and the structured-output cleanup of
    `extractEntities` (`JSON.parse` is a parameter, as it is a JS builtin).
  * `src/routes/documentRoutes.js` — the `/ask` handler orchestration.
-/

set_option maxRecDepth 10000

namespace DeepSearch

/-! ## Vector index data model

From `src/services/vectorDbService.js`: vectors are upserted with metadata
`{text, documentId, userId, chunkIndex}`; all metadata fields may be absent on
a record (the code reads them with `match.metadata?.field`), so each is an
`Option`. -/

structure Meta where
  text : Option String
  documentId : Option String
  userId : Option String
  chunkIndex : Option Nat
  deriving Repr, DecidableEq

structure StoredVector where
  id : String
  values : List Int
  metadata : Meta
  deriving Repr, DecidableEq

/-- The Pinecone namespace contents. -/
structure VectorIndex where
  vectors : List StoredVector
  deriving Repr, DecidableEq

/-- A metadata equality filter as built by `queryEmbeddings`: each present
field is a `$eq` constraint. -/
structure QueryFilter where
  userId : Option String
  documentId : Option String
  deriving Repr, DecidableEq

/-- Pinecone `$eq` semantics: a constraint on a field matches when the stored
metadata field equals the requested value (an absent field never matches). -/
def metaMatches (f : QueryFilter) (m : Meta) : Bool :=
  (match f.userId with
   | none => true
   | some u => m.userId = some u)
  &&
  (match f.documentId with
   | none => true
   | some d => m.documentId = some d)

/-- Here `none` models a query issued without any `filter` option. -/
def filterMatches : Option QueryFilter → Meta → Bool
  | none, _ => true
  | some f, m => metaMatches f m

/-- Insert a scored vector into a list sorted by descending score. -/
def insertByScore (p : StoredVector × Int) :
    List (StoredVector × Int) → List (StoredVector × Int)
  | [] => [p]
  | q :: rest => if q.2 < p.2 then p :: q :: rest else q :: insertByScore p rest

/-- Sort scored vectors by descending score (the index returns the best
matches first). -/
def sortByScoreDesc : List (StoredVector × Int) → List (StoredVector × Int)
  | [] => []
  | p :: rest => insertByScore p (sortByScoreDesc rest)

/-- Model of `namespace.query(...)`: score every vector passing the filter against the
query embedding, order by descending score, return the best `topK`.  `sim` is
the provider's similarity measure (cosine in the deployed index), kept
abstract. -/
def namespaceQuery (idx : VectorIndex) (sim : List Int → List Int → Int)
    (embedding : List Int) (topK : Nat) (filt : Option QueryFilter) :
    List (StoredVector × Int) :=
  (sortByScoreDesc
    ((idx.vectors.filter (fun v => filterMatches filt v.metadata)).map
      (fun v => (v, sim embedding v.values)))).take topK

/-- The shape `queryEmbeddings` maps every raw match to:
`{text: match.metadata?.text || '', score, documentId, chunkIndex}`. -/
structure RetrievalMatch where
  text : String
  score : Int
  documentId : Option String
  chunkIndex : Option Nat
  deriving Repr, DecidableEq

def toRetrievalMatch (p : StoredVector × Int) : RetrievalMatch :=
  { text := p.1.metadata.text.getD ""
    score := p.2
    documentId := p.1.metadata.documentId
    chunkIndex := p.1.metadata.chunkIndex }

/-- Which call site of `queryEmbeddings` issued a query: the strict tier-1
query, the tier-2 relaxed fallback, or the tier-3 unfiltered last resort. -/
inductive Tier where
  | strict
  | relaxed
  | unfiltered
  deriving Repr, DecidableEq

structure IssuedQuery where
  tier : Tier
  filt : Option QueryFilter
  topK : Nat
  deriving Repr, DecidableEq

/-- Model of `queryEmbeddings(embedding, userId, topK, documentId)` from
`src/services/vectorDbService.js`, instrumented with the list of queries it
issues against the index.  Mirrors the source: strict filter first; when it
returns no matches and a `documentId` was supplied, relax to the user-only
filter with `Math.max(15, topK)`; when still empty (or no `documentId`), query
without any filter with `Math.max(20, topK)`. -/
def queryEmbeddingsT (idx : VectorIndex) (sim : List Int → List Int → Int)
    (embedding : List Int) (userId : String) (topK : Nat)
    (documentId : Option String) : List IssuedQuery × List RetrievalMatch :=
  let strictFilter : QueryFilter :=
    match documentId with
    | some d => { userId := some userId, documentId := some d }
    | none => { userId := some userId, documentId := none }
  let q1 : IssuedQuery := ⟨.strict, some strictFilter, topK⟩
  let tier1 := namespaceQuery idx sim embedding topK (some strictFilter)
  if 0 < tier1.length then
    ([q1], tier1.map toRetrievalMatch)
  else
    match documentId with
    | some _ =>
      let relaxedFilter : QueryFilter := { userId := some userId, documentId := none }
      let q2 : IssuedQuery := ⟨.relaxed, some relaxedFilter, max 15 topK⟩
      let relaxedMatches :=
        namespaceQuery idx sim embedding (max 15 topK) (some relaxedFilter)
      if 0 < relaxedMatches.length then
        ([q1, q2], relaxedMatches.map toRetrievalMatch)
      else
        let q3 : IssuedQuery := ⟨.unfiltered, none, max 20 topK⟩
        ([q1, q2, q3],
          (namespaceQuery idx sim embedding (max 20 topK) none).map toRetrievalMatch)
    | none =>
      let q3 : IssuedQuery := ⟨.unfiltered, none, max 20 topK⟩
      ([q1, q3],
        (namespaceQuery idx sim embedding (max 20 topK) none).map toRetrievalMatch)

/-- The value `queryEmbeddings` returns to its caller. -/
def queryEmbeddings (idx : VectorIndex) (sim : List Int → List Int → Int)
    (embedding : List Int) (userId : String) (topK : Nat)
    (documentId : Option String) : List RetrievalMatch :=
  (queryEmbeddingsT idx sim embedding userId topK documentId).2

/-- True when the tier-3 unfiltered last resort was reached. -/
def usedUnfilteredTier (idx : VectorIndex) (sim : List Int → List Int → Int)
    (embedding : List Int) (userId : String) (topK : Nat)
    (documentId : Option String) : Bool :=
  (queryEmbeddingsT idx sim embedding userId topK documentId).1.any
    (fun q => q.tier = Tier.unfiltered)

/-- The relaxed (tier-2) queries recorded in a trace. -/
def relaxedQueries (trace : List IssuedQuery) : List IssuedQuery :=
  trace.filter (fun q => q.tier = Tier.relaxed)

/-! ### Basic lemmas about the query model -/

theorem mem_insertByScore {q p : StoredVector × Int}
    {l : List (StoredVector × Int)} :
    q ∈ insertByScore p l ↔ q = p ∨ q ∈ l := by
  induction l with
  | nil => simp [insertByScore]
  | cons r rest ih =>
    by_cases h : r.2 < p.2
    · simp only [insertByScore, if_pos h, List.mem_cons]
      try tauto
    · simp only [insertByScore, if_neg h, List.mem_cons, ih]
      try tauto

theorem mem_sortByScoreDesc {q : StoredVector × Int}
    {l : List (StoredVector × Int)} :
    q ∈ sortByScoreDesc l ↔ q ∈ l := by
  induction l with
  | nil => simp [sortByScoreDesc]
  | cons p rest ih =>
    simp [sortByScoreDesc, mem_insertByScore, ih]

/-- Every match produced by a filtered index query is a stored vector that
passes the filter, scored by the similarity function. -/
theorem mem_namespaceQuery {idx : VectorIndex}
    {sim : List Int → List Int → Int} {embedding : List Int} {topK : Nat}
    {f : QueryFilter} {p : StoredVector × Int}
    (h : p ∈ namespaceQuery idx sim embedding topK (some f)) :
    p.1 ∈ idx.vectors ∧ metaMatches f p.1.metadata = true ∧
      p = (p.1, sim embedding p.1.values) := by
  have h1 := List.mem_of_mem_take h
  rw [mem_sortByScoreDesc] at h1
  rcases List.mem_map.mp h1 with ⟨v, hv, hveq⟩
  rcases List.mem_filter.mp hv with ⟨hvm, hvf⟩
  subst hveq
  exact ⟨hvm, by simpa [filterMatches] using hvf, rfl⟩

/-- A filter whose `userId` constraint is `u` only passes metadata recording
exactly that user. -/
theorem metaMatches_userId {f : QueryFilter} {m : Meta} {u : String}
    (hf : f.userId = some u) (h : metaMatches f m = true) :
    m.userId = some u := by
  unfold metaMatches at h
  rw [hf] at h
  simp only [Bool.and_eq_true, decide_eq_true_eq] at h
  exact h.1

/-! ### Concrete index instances used to evaluate the query model -/

/-- A similarity function assigning score 1 to every pair (the control flow of
`queryEmbeddings` does not depend on the scores). -/
def simOne : List Int → List Int → Int := fun _ _ => 1

def bobVector : StoredVector :=
  { id := "bobdoc#chunk_0"
    values := [1]
    metadata := { text := some "bob secret", documentId := some "bobdoc",
                  userId := some "bob", chunkIndex := some 0 } }

/-- An index holding a single vector owned by user `bob`. -/
def bobIndex : VectorIndex := ⟨[bobVector]⟩

def aliceVector : StoredVector :=
  { id := "alicedoc#chunk_0"
    values := [1]
    metadata := { text := some "alice text", documentId := some "alicedoc",
                  userId := some "alice", chunkIndex := some 0 } }

/-- An index holding a single vector owned by user `alice`. -/
def aliceIndex : VectorIndex := ⟨[aliceVector]⟩

/-! ## Claims C1 and C2: the tiered fallback of `queryEmbeddings` -/

/-- C1, counterexample: with the tier-3 unfiltered fallback, `queryEmbeddings`
can return a match stored for a different user.  Querying as `alice` against
an index that holds only `bob`'s vector returns `bob`'s chunk. -/
theorem queryEmbeddings_leaks_cross_user :
    queryEmbeddings bobIndex simOne [1] "alice" 5 none =
      [{ text := "bob secret", score := 1, documentId := some "bobdoc",
         chunkIndex := some 0 }] ∧
    ∀ v ∈ bobIndex.vectors, v.metadata.userId ≠ some "alice" := by
  constructor
  · decide
  · decide

/-- C1, amended: as long as the tier-3 unfiltered last resort is not reached,
every match returned by `queryEmbeddings` originates from a stored vector
whose `userId` metadata equals the requested user — tiers 1 and 2 both carry
the `userId` equality filter. -/
theorem queryEmbeddings_user_isolation (idx : VectorIndex)
    (sim : List Int → List Int → Int) (embedding : List Int) (u : String)
    (topK : Nat) (d : Option String)
    (hq : usedUnfilteredTier idx sim embedding u topK d = false) :
    ∀ m ∈ queryEmbeddings idx sim embedding u topK d,
      ∃ v, v ∈ idx.vectors ∧ v.metadata.userId = some u ∧
        m = toRetrievalMatch (v, sim embedding v.values) := by
  intro m hm
  unfold usedUnfilteredTier at hq
  unfold queryEmbeddings at hm
  cases d with
  | none =>
    simp only [queryEmbeddingsT] at hm hq
    by_cases h1 :
        0 < (namespaceQuery idx sim embedding topK
              (some ⟨some u, none⟩)).length
    · rw [if_pos h1] at hm
      rcases List.mem_map.mp hm with ⟨p, hp, rfl⟩
      obtain ⟨hv, hmm, hpe⟩ := mem_namespaceQuery hp
      refine ⟨p.1, hv, metaMatches_userId rfl hmm, ?_⟩
      exact congrArg toRetrievalMatch hpe
    · rw [if_neg h1] at hq
      simp [List.any] at hq
  | some docId =>
    simp only [queryEmbeddingsT] at hm hq
    by_cases h1 :
        0 < (namespaceQuery idx sim embedding topK
              (some ⟨some u, some docId⟩)).length
    · rw [if_pos h1] at hm
      rcases List.mem_map.mp hm with ⟨p, hp, rfl⟩
      obtain ⟨hv, hmm, hpe⟩ := mem_namespaceQuery hp
      refine ⟨p.1, hv, metaMatches_userId rfl hmm, ?_⟩
      exact congrArg toRetrievalMatch hpe
    · rw [if_neg h1] at hm hq
      by_cases h2 :
          0 < (namespaceQuery idx sim embedding (max 15 topK)
                (some ⟨some u, none⟩)).length
      · rw [if_pos h2] at hm
        rcases List.mem_map.mp hm with ⟨p, hp, rfl⟩
        obtain ⟨hv, hmm, hpe⟩ := mem_namespaceQuery hp
        refine ⟨p.1, hv, metaMatches_userId rfl hmm, ?_⟩
        exact congrArg toRetrievalMatch hpe
      · rw [if_neg h2] at hq
        simp [List.any] at hq

/-- C1, witness: a query for `alice` against `alice`'s own index stays inside
the user-scoped tiers, and the returned match is `alice`'s vector. -/
theorem queryEmbeddings_user_isolation_witness :
    ∃ v, v ∈ aliceIndex.vectors ∧ v.metadata.userId = some "alice" ∧
      ({ text := "alice text", score := 1, documentId := some "alicedoc",
         chunkIndex := some 0 } : RetrievalMatch) =
        toRetrievalMatch (v, simOne [1] v.values) :=
  queryEmbeddings_user_isolation aliceIndex simOne [1] "alice" 5 none
    (by decide) _ (by decide)

/-- C2: when a `documentId` was supplied and the strict tier-1 query returned
no matches, `queryEmbeddings` issues exactly one relaxed query, carrying the
user-only filter and requesting `max(topK, 15)` results; when that relaxed
query matches, its matches are the full response.  No relaxed query is issued
when tier 1 matched or when no `documentId` was supplied. -/
theorem queryEmbeddings_tier2_relaxation (idx : VectorIndex)
    (sim : List Int → List Int → Int) (embedding : List Int) (u : String)
    (topK : Nat) (d : String) :
    (namespaceQuery idx sim embedding topK (some ⟨some u, some d⟩) = [] →
      relaxedQueries (queryEmbeddingsT idx sim embedding u topK (some d)).1 =
        [⟨Tier.relaxed, some ⟨some u, none⟩, max 15 topK⟩] ∧
      (namespaceQuery idx sim embedding (max 15 topK)
          (some ⟨some u, none⟩) ≠ [] →
        queryEmbeddings idx sim embedding u topK (some d) =
          (namespaceQuery idx sim embedding (max 15 topK)
            (some ⟨some u, none⟩)).map toRetrievalMatch))
    ∧ (namespaceQuery idx sim embedding topK (some ⟨some u, some d⟩) ≠ [] →
        relaxedQueries (queryEmbeddingsT idx sim embedding u topK (some d)).1
          = [])
    ∧ ∀ k : Nat,
        relaxedQueries (queryEmbeddingsT idx sim embedding u k none).1 = [] := by
  refine ⟨?_, ?_, ?_⟩
  · intro h1
    have h1' : ¬ 0 < (namespaceQuery idx sim embedding topK
        (some ⟨some u, some d⟩)).length := by
      rw [h1]; simp
    constructor
    · simp only [queryEmbeddingsT, if_neg h1']
      by_cases h2 :
          0 < (namespaceQuery idx sim embedding (max 15 topK)
                (some ⟨some u, none⟩)).length
      · rw [if_pos h2]
        simp [relaxedQueries]
      · rw [if_neg h2]
        simp [relaxedQueries]
    · intro h2
      have h2' : 0 < (namespaceQuery idx sim embedding (max 15 topK)
          (some ⟨some u, none⟩)).length := List.length_pos.mpr h2
      simp only [queryEmbeddings, queryEmbeddingsT, if_neg h1', if_pos h2']
  · intro h1
    have h1' : 0 < (namespaceQuery idx sim embedding topK
        (some ⟨some u, some d⟩)).length := List.length_pos.mpr h1
    simp only [queryEmbeddingsT, if_pos h1']
    simp [relaxedQueries]
  · intro k
    simp only [queryEmbeddingsT]
    by_cases h1 :
        0 < (namespaceQuery idx sim embedding k (some ⟨some u, none⟩)).length
    · rw [if_pos h1]
      simp [relaxedQueries]
    · rw [if_neg h1]
      simp [relaxedQueries]

/-- C2, witness: querying `alice`'s index for a document id that matches
nothing in tier 1 triggers exactly one relaxed query, whose matches are
returned. -/
theorem queryEmbeddings_tier2_relaxation_witness :
    relaxedQueries
        (queryEmbeddingsT aliceIndex simOne [1] "alice" 5 (some "otherdoc")).1 =
      [⟨Tier.relaxed, some ⟨some "alice", none⟩, max 15 5⟩] ∧
    queryEmbeddings aliceIndex simOne [1] "alice" 5 (some "otherdoc") =
      (namespaceQuery aliceIndex simOne [1] (max 15 5)
        (some ⟨some "alice", none⟩)).map toRetrievalMatch :=
  ⟨((queryEmbeddings_tier2_relaxation aliceIndex simOne [1] "alice" 5
      "otherdoc").1 (by decide)).1,
   ((queryEmbeddings_tier2_relaxation aliceIndex simOne [1] "alice" 5
      "otherdoc").1 (by decide)).2 (by decide)⟩

/-! ## Claim C9: `deleteVectorsByDocumentId` -/

/-- Model of `deleteVectorsByDocumentId(documentId)` from
`src/services/vectorDbService.js`: `namespace.deleteMany({filter:
{documentId: {$eq: documentId}}})` — every vector whose metadata matches the
`documentId` equality filter is removed, with no `userId` constraint. -/
def deleteVectorsByDocumentId (idx : VectorIndex) (documentId : String) :
    VectorIndex :=
  { vectors :=
      idx.vectors.filter (fun v => ! decide (v.metadata.documentId = some documentId)) }

/-- A filter whose `documentId` constraint is `d` only passes metadata
recording exactly that document. -/
theorem metaMatches_documentId {f : QueryFilter} {m : Meta} {d : String}
    (hf : f.documentId = some d) (h : metaMatches f m = true) :
    m.documentId = some d := by
  unfold metaMatches at h
  rw [hf] at h
  simp only [Bool.and_eq_true, decide_eq_true_eq] at h
  exact h.2

/-- C9: deleting a document removes every vector carrying that `documentId`
(regardless of its `userId`), any subsequent query whose filter constrains
`documentId` to the deleted id returns zero matches, and vectors of other
documents are untouched. -/
theorem deleteVectors_removes_document (idx : VectorIndex) (d : String)
    (sim : List Int → List Int → Int) (embedding : List Int) (topK : Nat) :
    (∀ v ∈ (deleteVectorsByDocumentId idx d).vectors,
        v.metadata.documentId ≠ some d)
    ∧ (∀ f : QueryFilter, f.documentId = some d →
        namespaceQuery (deleteVectorsByDocumentId idx d) sim embedding topK
          (some f) = [])
    ∧ (∀ v ∈ idx.vectors, v.metadata.documentId ≠ some d →
        v ∈ (deleteVectorsByDocumentId idx d).vectors) := by
  refine ⟨?_, ?_, ?_⟩
  · intro v hv
    rcases List.mem_filter.mp hv with ⟨_, hfl⟩
    simpa using hfl
  · intro f hf
    have hempty :
        (deleteVectorsByDocumentId idx d).vectors.filter
          (fun v => filterMatches (some f) v.metadata) = [] := by
      rw [List.filter_eq_nil_iff]
      intro v hv
      rcases List.mem_filter.mp hv with ⟨_, hfl⟩
      simp only [Bool.not_eq_true', decide_eq_false_iff_not] at hfl
      intro hmatch
      simp only [filterMatches] at hmatch
      exact hfl (metaMatches_documentId hf hmatch)
    simp [namespaceQuery, hempty, sortByScoreDesc]
  · intro v hv hne
    exact List.mem_filter.mpr ⟨hv, by simpa using hne⟩

/-- C9, witness: after deleting `bobdoc` from `bob`'s index, a query filtered
to that document id returns no matches. -/
theorem deleteVectors_removes_document_witness :
    namespaceQuery (deleteVectorsByDocumentId bobIndex "bobdoc") simOne [1] 5
      (some ⟨none, some "bobdoc"⟩) = [] :=
  (deleteVectors_removes_document bobIndex "bobdoc" simOne [1] 5).2.1
    ⟨none, some "bobdoc"⟩ rfl

/-! ## The chunker: `chunkText` from `src/utils/fileProcessor.js`

The JavaScript primitives it relies on are embedded first:
`text.match(/[^\.!\?]+[\.!\?]+/g) || [text]`, `sentence.split(/\s+/)`,
`String.prototype.trim`, `Array.prototype.slice(-overlap)` and
`Array.prototype.join(' ')`. -/

/-- The character class `\s` restricted to the usual ASCII whitespace. -/
def isJsWs (c : Char) : Bool :=
  c = ' ' || c = '\t' || c = '\n' || c = '\r' || c = '\x0b' || c = '\x0c'

/-- Sentence-terminal punctuation of the chunking regex. -/
def isTerminal (c : Char) : Bool :=
  c = '.' || c = '!' || c = '?'

/-- Global matching of `/[^\.!\?]+[\.!\?]+/`: scan the input once; a match is
a maximal run of non-terminal characters (`body`, accumulated reversed)
followed by a maximal run of terminal characters (`punct`, accumulated
reversed).  Characters that cannot start a match are skipped; an unfinished
body at the end of input is not a match. -/
def sentMatchAux : List Char → List Char → List Char → List (List Char)
  | [], _, [] => []
  | [], body, c :: p => [body.reverse ++ (c :: p).reverse]
  | c :: rest, body, [] =>
    if isTerminal c then
      match body with
      | [] => sentMatchAux rest [] []
      | _ => sentMatchAux rest body [c]
    else sentMatchAux rest (c :: body) []
  | c :: rest, body, p0 :: p =>
    if isTerminal c then sentMatchAux rest body (c :: p0 :: p)
    else (body.reverse ++ (p0 :: p).reverse) :: sentMatchAux rest [c] []

/-- Model of `text.match(/[^\.!\?]+[\.!\?]+/g) || [text]`: the list of sentence
matches, or the whole text as a single unit when the regex matches nowhere
(`match` returns `null`). -/
def sentSplit (s : String) : List String :=
  match sentMatchAux s.data [] [] with
  | [] => [s]
  | l => l.map fun cs => String.mk cs

/-- Model of `s.split(/\s+/)`: split at maximal whitespace runs.  A run at the start
(or end) of the string contributes a leading (trailing) empty piece, exactly
as in JavaScript; the whole string is one piece when no run occurs. -/
def wsSplitAux : List Char → List Char → Bool → List (List Char)
  | [], acc, _ => [acc.reverse]
  | c :: rest, acc, inRun =>
    if isJsWs c then
      if inRun then wsSplitAux rest acc true
      else acc.reverse :: wsSplitAux rest [] true
    else wsSplitAux rest (c :: acc) false

def wsSplit (s : String) : List String :=
  (wsSplitAux s.data [] false).map fun cs => String.mk cs

/-- Model of `String.prototype.trim`. -/
def jsTrimData (cs : List Char) : List Char :=
  ((cs.dropWhile isJsWs).reverse.dropWhile isJsWs).reverse

def jsTrim (s : String) : String := String.mk (jsTrimData s.data)

/-- Model of `arr.slice(-n)` on a list: the last `n` elements; `slice(-0)` is the whole
array (in JavaScript `-0 === 0`, so `slice(0)` copies the array). -/
def jsSliceNeg (l : List String) (n : Nat) : List String :=
  if n = 0 then l else l.drop (l.length - n)

/-- The accumulation loop of `chunkText`: walks the sentence units carrying
`currentChunk` and `currentTokenCount`, and returns the chunks pushed inside
the loop together with the final `currentChunk`.  Each close pushes
`currentChunk.trim()` and seeds the next chunk with the last `overlap` words
(`currentChunk.split(/\s+/).slice(-overlap)`) joined by a space and the
triggering sentence. -/
def chunkLoop (chunkSize overlap : Nat) :
    List String → String → Nat → List String × String
  | [], currentChunk, _ => ([], currentChunk)
  | sentence :: rest, currentChunk, currentTokenCount =>
    let stc := (wsSplit sentence).length
    if chunkSize < currentTokenCount + stc ∧ 0 < currentChunk.length then
      let words := wsSplit currentChunk
      let overlapWords := jsSliceNeg words overlap
      let next := String.intercalate " " overlapWords ++ " " ++ sentence
      let r := chunkLoop chunkSize overlap rest next (overlapWords.length + stc)
      (jsTrim currentChunk :: r.1, r.2)
    else
      chunkLoop chunkSize overlap rest (currentChunk ++ " " ++ sentence)
        (currentTokenCount + stc)

/-- Model of `chunkText(text, chunkSize = 500, overlap = 100)` from
`src/utils/fileProcessor.js`.  After the loop, a trailing chunk with
non-empty trim is flushed, and an empty chunk list falls back to `[text]`. -/
def chunkText (text : String) (chunkSize : Nat := 500) (overlap : Nat := 100) :
    List String :=
  let sentences := sentSplit text
  let r := chunkLoop chunkSize overlap sentences "" 0
  let chunks :=
    if 0 < (jsTrim r.2).length then r.1 ++ [jsTrim r.2] else r.1
  if 0 < chunks.length then chunks else [text]

/-! ## Claims C4 and C5: `chunkText` edge behavior -/

/-- C5, counterexample: `chunkText` applied to the empty string does not
return the empty sequence — the `chunks.length > 0 ? chunks : [text]`
fallback yields the one-element list `[""]`. -/
theorem chunkText_empty_not_nil :
    chunkText "" 500 100 = [""] ∧ chunkText "" 500 100 ≠ [] := by
  constructor
  · decide
  · decide

/-- C5, amended: for every `chunkSize` and `overlap`, `chunkText` on the
empty string returns the single-chunk list `[""]` (the degenerate
whole-input fallback), not the empty sequence. -/
theorem chunkText_empty (ts ov : Nat) : chunkText "" ts ov = [""] := by
  have hs : sentSplit "" = [""] := rfl
  have hcond : ¬ (ts < 0 + (wsSplit "").length ∧ 0 < ("" : String).length) := by
    intro h
    simpa using h.2
  have hloop : chunkLoop ts ov [""] "" 0 = ([], " ") := by
    rw [chunkLoop, if_neg hcond]
    rfl
  simp only [chunkText]
  rw [hs, hloop]
  decide

/-- C4, counterexample: `chunkText` does not clamp `overlap` to
`targetSize - 1`.  With `targetSize = 3` and `overlap = 10` the output
differs from the output with `overlap = 2`, and the second chunk repeats the
entire first chunk (3 seeded tokens, exceeding `targetSize - 1 = 2`). -/
theorem chunkText_no_overlap_clamp :
    chunkText "a b c. d. e." 3 10 ≠ chunkText "a b c. d. e." 3 2 ∧
    (chunkText "a b c. d. e." 3 10)[1]? = some "a b c.  d." := by
  constructor
  · decide
  · decide

/-- Each iteration of the chunking loop pushes at most one chunk and consumes
one sentence unit. -/
theorem chunkLoop_length_le (cs ov : Nat) (sents : List String) :
    ∀ cur cnt, (chunkLoop cs ov sents cur cnt).1.length ≤ sents.length := by
  induction sents with
  | nil =>
    intro cur cnt
    simp [chunkLoop]
  | cons s rest ih =>
    intro cur cnt
    simp only [chunkLoop]
    split
    · simp only [List.length_cons]
      exact Nat.succ_le_succ (ih _ _)
    · simp only [List.length_cons]
      exact Nat.le_succ_of_le (ih _ _)

/-- C4, amended: no overlap clamping happens (the seed of a new chunk is the
last `min(overlap, wordCount)` words of the closed chunk, possibly all of
it), but chunking still always terminates with forward progress: every close
consumes a sentence unit, so `chunkText` returns at most one chunk more than
the number of sentence units — for every input and every parameter pair,
including `overlap ≥ targetSize`. -/
theorem chunkText_progress (text : String) (ts ov : Nat) :
    (chunkText text ts ov).length ≤ (sentSplit text).length + 1 := by
  simp only [chunkText]
  by_cases h : 0 < (jsTrim (chunkLoop ts ov (sentSplit text) "" 0).2).length
  · rw [if_pos h]
    have hpos :
        0 < ((chunkLoop ts ov (sentSplit text) "" 0).1 ++
          [jsTrim (chunkLoop ts ov (sentSplit text) "" 0).2]).length := by
      simp
    rw [if_pos hpos]
    simp only [List.length_append, List.length_cons, List.length_nil]
    exact Nat.succ_le_succ (chunkLoop_length_le ts ov (sentSplit text) "" 0)
  · rw [if_neg h]
    by_cases h2 : 0 < (chunkLoop ts ov (sentSplit text) "" 0).1.length
    · rw [if_pos h2]
      exact Nat.le_succ_of_le (chunkLoop_length_le ts ov (sentSplit text) "" 0)
    · rw [if_neg h2]
      simp

/-! ## Claim C6: deterministic chunk ids in `upsertVectors`

From `src/services/vectorDbService.js`: every incoming vector is assigned
`id: documentId + "#chunk_" + index` and metadata
`{...vec.metadata, documentId, userId, chunkIndex: index}`. -/

/-- A vector as passed into `upsertVectors` (values plus caller metadata). -/
structure InVector where
  values : List Int
  metadata : Meta
  deriving Repr, DecidableEq

def chunkVectorId (documentId : String) (i : Nat) : String :=
  documentId ++ "#chunk_" ++ toString i

def vectorsWithMetadataAux (documentId userId : String) :
    Nat → List InVector → List StoredVector
  | _, [] => []
  | i, vec :: rest =>
    { id := chunkVectorId documentId i
      values := vec.values
      metadata := { text := vec.metadata.text
                    documentId := some documentId
                    userId := some userId
                    chunkIndex := some i } } ::
      vectorsWithMetadataAux documentId userId (i + 1) rest

/-- The `vectors.map((vec, index) => ...)` step of `upsertVectors`. -/
def vectorsWithMetadata (vectors : List InVector) (documentId userId : String) :
    List StoredVector :=
  vectorsWithMetadataAux documentId userId 0 vectors

theorem vectorsWithMetadataAux_ids (documentId userId : String)
    (vs : List InVector) : ∀ i : Nat,
    (vectorsWithMetadataAux documentId userId i vs).map (fun v => v.id) =
      (List.range vs.length).map (fun j => chunkVectorId documentId (i + j)) := by
  induction vs with
  | nil => intro i; simp [vectorsWithMetadataAux]
  | cons v rest ih =>
    intro i
    simp only [vectorsWithMetadataAux, List.map_cons, List.length_cons,
      List.range_succ_eq_map, List.map_map]
    refine congrArg₂ _ (by simp) ?_
    rw [ih (i + 1)]
    apply List.map_congr_left
    intro j _
    simp [Function.comp]
    ring_nf

/-- C6: the index writer assigns chunk `index` the id
`documentId + "#chunk_" + index`, a deterministic function of
`(documentId, ordinal)` alone — so two ingestions of equally long chunk
lists for the same `documentId` produce exactly the same id sequence
(idempotent overwrite, not duplication). -/
theorem upsertVectors_ids_deterministic (vs : List InVector)
    (documentId userId : String) :
    (vectorsWithMetadata vs documentId userId).map (fun v => v.id) =
      (List.range vs.length).map (chunkVectorId documentId)
    ∧ ∀ (vs' : List InVector) (userId' : String), vs'.length = vs.length →
        (vectorsWithMetadata vs' documentId userId').map (fun v => v.id) =
          (vectorsWithMetadata vs documentId userId).map (fun v => v.id) := by
  have hids : ∀ (l : List InVector) (u : String),
      (vectorsWithMetadata l documentId u).map (fun v => v.id) =
        (List.range l.length).map (chunkVectorId documentId) := by
    intro l u
    rw [vectorsWithMetadata, vectorsWithMetadataAux_ids]
    apply List.map_congr_left
    intro j _
    simp
  refine ⟨hids vs userId, ?_⟩
  intro vs' userId' hlen
  rw [hids vs' userId', hids vs userId, hlen]

/-- C6, witness: two two-chunk ingestions for document `doc1` with different
user ids and different vector payloads produce the same id sequence. -/
theorem upsertVectors_ids_deterministic_witness :
    (vectorsWithMetadata
        [⟨[5], ⟨some "x", none, none, none⟩⟩, ⟨[6], ⟨some "y", none, none, none⟩⟩]
        "doc1" "alice").map (fun v => v.id) =
      (vectorsWithMetadata
        [⟨[7], ⟨some "z", none, none, none⟩⟩, ⟨[8], ⟨some "w", none, none, none⟩⟩]
        "doc1" "bob").map (fun v => v.id) :=
  ((upsertVectors_ids_deterministic
      [⟨[7], ⟨some "z", none, none, none⟩⟩, ⟨[8], ⟨some "w", none, none, none⟩⟩]
      "doc1" "bob").2
    [⟨[5], ⟨some "x", none, none, none⟩⟩, ⟨[6], ⟨some "y", none, none, none⟩⟩]
    "alice" (by decide))

/-! ## Claim C7: the retry/verification loop of `upsertVectors`

The loop from `src/services/vectorDbService.js` (`maxAttempts = 3`):
each iteration increments `attempt`, calls `namespace.upsert`, then
`describeIndexStats` filtered by `(documentId, userId)`.  A positive count
estimate breaks out (verified); an inconclusive estimate waits
`1000 * attempt` ms and retries, or logs a soft-success warning on the final
attempt; a thrown error re-raises on the final attempt and otherwise waits
`1500 * attempt` ms.  `submit a` / `verify a` give the outcome of the two
external calls on attempt `a`; the result records whether the write was
verified, together with the waits performed. -/

def upsertLoop (submit : Nat → Except String Unit)
    (verify : Nat → Except String Nat) (maxAttempts : Nat) :
    Nat → Nat → List Nat → Except String (Bool × List Nat)
  | 0, _, delays => .ok (false, delays)
  | fuel + 1, attempt, delays =>
    if attempt < maxAttempts then
      let a := attempt + 1
      match submit a with
      | .error e =>
        if maxAttempts ≤ a then .error e
        else upsertLoop submit verify maxAttempts fuel a (delays ++ [1500 * a])
      | .ok _ =>
        match verify a with
        | .error e =>
          if maxAttempts ≤ a then .error e
          else upsertLoop submit verify maxAttempts fuel a (delays ++ [1500 * a])
        | .ok count =>
          if 0 < count then .ok (true, delays)
          else if a < maxAttempts then
            upsertLoop submit verify maxAttempts fuel a (delays ++ [1000 * a])
          else
            upsertLoop submit verify maxAttempts fuel a delays
    else .ok (false, delays)

/-- The retry loop of `upsertVectors` as entered by the source:
`maxAttempts = 3`, `attempt = 0`, no waits performed yet. -/
def upsertRun (submit : Nat → Except String Unit)
    (verify : Nat → Except String Nat) : Except String (Bool × List Nat) :=
  upsertLoop submit verify 3 3 0 []

/-- Attempt `a` confirmed visibility: the submission succeeded and the
filtered count estimate was positive. -/
def attemptVerified (submit : Nat → Except String Unit)
    (verify : Nat → Except String Nat) (a : Nat) : Prop :=
  submit a = .ok () ∧ ∃ c, verify a = .ok c ∧ 0 < c

/-- Attempt `a` threw `e`: either the submission itself, or — after a
successful submission — the verification call. -/
def attemptThrows (submit : Nat → Except String Unit)
    (verify : Nat → Except String Nat) (a : Nat) (e : String) : Prop :=
  submit a = .error e ∨ (submit a = .ok () ∧ verify a = .error e)

/-- Attempt `a` was inconclusive: the submission succeeded but the count
estimate came back zero. -/
def attemptSoft (submit : Nat → Except String Unit)
    (verify : Nat → Except String Nat) (a : Nat) : Prop :=
  submit a = .ok () ∧ verify a = .ok 0

theorem attempt_trichotomy (submit : Nat → Except String Unit)
    (verify : Nat → Except String Nat) (a : Nat) :
    attemptVerified submit verify a ∨ (∃ e, attemptThrows submit verify a e) ∨
      attemptSoft submit verify a := by
  rcases hs : submit a with e | u
  · exact Or.inr (Or.inl ⟨e, Or.inl hs⟩)
  · rcases hv : verify a with f | c
    · exact Or.inr (Or.inl ⟨f, Or.inr ⟨by simpa using hs, hv⟩⟩)
    · rcases Nat.eq_zero_or_pos c with hc | hc
      · subst hc
        exact Or.inr (Or.inr ⟨by simpa using hs, hv⟩)
      · exact Or.inl ⟨by simpa using hs, c, hv, hc⟩

/-- Once `attempt` has reached `maxAttempts`, the loop exits unverified. -/
theorem upsertLoop_exit (submit : Nat → Except String Unit)
    (verify : Nat → Except String Nat) (m : Nat) (d : List Nat) :
    ∀ fuel, upsertLoop submit verify m fuel m d = .ok (false, d) := by
  intro fuel
  cases fuel with
  | zero => rfl
  | succ f => simp [upsertLoop]

/-- A verified attempt breaks out of the loop with the waits so far. -/
theorem upsertLoop_verified (submit : Nat → Except String Unit)
    (verify : Nat → Except String Nat) (m fuel attempt : Nat) (d : List Nat)
    (hlt : attempt < m) (hv : attemptVerified submit verify (attempt + 1)) :
    upsertLoop submit verify m (fuel + 1) attempt d = .ok (true, d) := by
  obtain ⟨hs, c, hvc, hc⟩ := hv
  simp [upsertLoop, hlt, hs, hvc, hc]

/-- A non-verified, non-final attempt continues the loop with the next
attempt number and some added wait. -/
theorem upsertLoop_step (submit : Nat → Except String Unit)
    (verify : Nat → Except String Nat) (m fuel attempt : Nat) (d : List Nat)
    (hlt : attempt + 1 < m) (hnv : ¬ attemptVerified submit verify (attempt + 1)) :
    ∃ d', upsertLoop submit verify m (fuel + 1) attempt d =
      upsertLoop submit verify m fuel (attempt + 1) d' := by
  have hlt0 : attempt < m := Nat.lt_of_succ_lt hlt
  have hnle : ¬ m ≤ attempt + 1 := Nat.not_le_of_lt hlt
  rcases hs : submit (attempt + 1) with e | u
  · exact ⟨d ++ [1500 * (attempt + 1)], by simp [upsertLoop, hlt0, hs, hnle]⟩
  · rcases hv : verify (attempt + 1) with f | c
    · exact ⟨d ++ [1500 * (attempt + 1)], by simp [upsertLoop, hlt0, hs, hv, hnle]⟩
    · have hc : ¬ 0 < c := by
        intro hc
        exact hnv ⟨by simpa using hs, c, hv, hc⟩
      exact ⟨d ++ [1000 * (attempt + 1)],
        by simp [upsertLoop, hlt0, hs, hv, hc, hlt]⟩

/-- The final attempt either re-raises what it threw, breaks verified, or
falls through to the soft exit. -/
theorem upsertLoop_final (submit : Nat → Except String Unit)
    (verify : Nat → Except String Nat) (m fuel attempt : Nat) (d : List Nat)
    (hm : attempt + 1 = m) :
    (∀ e, attemptThrows submit verify (attempt + 1) e →
      upsertLoop submit verify m (fuel + 1) attempt d = .error e)
    ∧ (attemptVerified submit verify (attempt + 1) →
        upsertLoop submit verify m (fuel + 1) attempt d = .ok (true, d))
    ∧ (attemptSoft submit verify (attempt + 1) →
        upsertLoop submit verify m (fuel + 1) attempt d = .ok (false, d)) := by
  have hlt : attempt < m := hm ▸ Nat.lt_succ_self attempt
  have hle : m ≤ attempt + 1 := Nat.le_of_eq hm.symm
  refine ⟨?_, ?_, ?_⟩
  · intro e he
    rcases he with hs | ⟨hs, hv⟩
    · simp [upsertLoop, hlt, hs, hle]
    · simp [upsertLoop, hlt, hs, hv, hle]
  · intro hv
    obtain ⟨hs, c, hvc, hc⟩ := hv
    simp [upsertLoop, hlt, hs, hvc, hc]
  · intro hsoft
    obtain ⟨hs, hv⟩ := hsoft
    have hnlt : ¬ attempt + 1 < m := by omega
    simp only [upsertLoop, if_pos hlt, hs, hv, Nat.lt_irrefl, if_false,
      if_neg hnlt]
    exact hm ▸ upsertLoop_exit submit verify m d fuel

/-- A run whose submissions all succeed. -/
def submitOk : Nat → Except String Unit := fun _ => .ok ()

/-- A verification oracle that returns a zero estimate on attempts 1 and 2
and throws on attempt 3. -/
def verifyThirdThrows : Nat → Except String Nat :=
  fun a => if a = 3 then .error "stats failed" else .ok 0

/-- A verification oracle whose count estimate is always zero. -/
def verifyZero : Nat → Except String Nat := fun _ => .ok 0

/-- C7, counterexample: `upsertVectors` can raise even though every
submission succeeded — when the verification call itself throws on the third
attempt, that error propagates. -/
theorem upsert_error_without_submission_failure :
    upsertRun submitOk verifyThirdThrows = .error "stats failed" ∧
    submitOk 1 = .ok () ∧ submitOk 2 = .ok () ∧ submitOk 3 = .ok () := by
  refine ⟨?_, rfl, rfl, rfl⟩
  rfl

/-- C7, amended: when every submission succeeds and the filtered count
estimate stays zero, the loop performs its three verification attempts with
growing waits (1000 ms then 2000 ms) and returns unverified without raising;
and an error `e` is raised exactly when neither of the first two attempts
verified and the third attempt itself threw `e` — from its submission or
from its verification call — in which case that final error propagates. -/
theorem upsertVectors_retry_semantics (submit : Nat → Except String Unit)
    (verify : Nat → Except String Nat) :
    ((∀ a, 1 ≤ a → a ≤ 3 → submit a = .ok () ∧ verify a = .ok 0) →
      upsertRun submit verify = .ok (false, [1000, 2000]))
    ∧ ∀ e, (upsertRun submit verify = .error e ↔
        ¬ attemptVerified submit verify 1 ∧ ¬ attemptVerified submit verify 2 ∧
          attemptThrows submit verify 3 e) := by
  constructor
  · intro h
    obtain ⟨hs1, hv1⟩ := h 1 (by norm_num) (by norm_num)
    obtain ⟨hs2, hv2⟩ := h 2 (by norm_num) (by norm_num)
    obtain ⟨hs3, hv3⟩ := h 3 (by norm_num) (by norm_num)
    simp [upsertRun, upsertLoop, hs1, hv1, hs2, hv2, hs3, hv3]
  · intro e
    constructor
    · intro herr
      by_cases h1 : attemptVerified submit verify 1
      · have hv := upsertLoop_verified submit verify 3 2 0 [] (by norm_num) h1
        norm_num at hv
        rw [upsertRun, hv] at herr
        simp at herr
      · obtain ⟨d1, hstep1⟩ :=
          upsertLoop_step submit verify 3 2 0 [] (by norm_num) h1
        norm_num at hstep1
        by_cases h2 : attemptVerified submit verify 2
        · have hv := upsertLoop_verified submit verify 3 1 1 d1 (by norm_num) h2
          norm_num at hv
          rw [upsertRun, hstep1, hv] at herr
          simp at herr
        · obtain ⟨d2, hstep2⟩ :=
            upsertLoop_step submit verify 3 1 1 d1 (by norm_num) h2
          norm_num at hstep2
          rcases attempt_trichotomy submit verify 3 with h3 | ⟨e3, h3⟩ | h3
          · have hv := (upsertLoop_final submit verify 3 0 2 d2 (by norm_num)).2.1
              (by norm_num at h3 ⊢; exact h3)
            norm_num at hv
            rw [upsertRun, hstep1, hstep2, hv] at herr
            simp at herr
          · have hv := (upsertLoop_final submit verify 3 0 2 d2 (by norm_num)).1 e3
              (by norm_num; exact h3)
            norm_num at hv
            rw [upsertRun, hstep1, hstep2, hv] at herr
            simp only [Except.error.injEq] at herr
            exact ⟨h1, h2, herr ▸ h3⟩
          · have hv := (upsertLoop_final submit verify 3 0 2 d2 (by norm_num)).2.2
              (by norm_num; exact h3)
            norm_num at hv
            rw [upsertRun, hstep1, hstep2, hv] at herr
            simp at herr
    · rintro ⟨h1, h2, h3⟩
      obtain ⟨d1, hstep1⟩ :=
        upsertLoop_step submit verify 3 2 0 [] (by norm_num) h1
      norm_num at hstep1
      obtain ⟨d2, hstep2⟩ :=
        upsertLoop_step submit verify 3 1 1 d1 (by norm_num) h2
      norm_num at hstep2
      have hv := (upsertLoop_final submit verify 3 0 2 d2 (by norm_num)).1 e
        (by norm_num; exact h3)
      norm_num at hv
      rw [upsertRun, hstep1, hstep2, hv]

/-- C7, witness: with all submissions succeeding and a permanently zero
count estimate, the run performs waits 1000 ms and 2000 ms and returns
soft (unverified) success. -/
theorem upsertVectors_retry_semantics_witness :
    upsertRun submitOk verifyZero = .ok (false, [1000, 2000]) :=
  (upsertVectors_retry_semantics submitOk verifyZero).1
    (fun _ _ _ => ⟨rfl, rfl⟩)

/-! ## `src/services/aiService.js`: response sanitization and the
structured-output cleanup of `extractEntities`

Embeddings of the JavaScript string operations the service performs:
`replace(/<think>[\s\S]*?<\/think>/gi, '')` (global, case-insensitive,
non-greedy), the two code-fence replaces, `indexOf`/`lastIndexOf`,
`substring`, and the `||` defaulting of falsy strings.  `JSON.parse` is a
JavaScript builtin, taken as a parameter returning `none` when it throws. -/

/-- Model of `s || dflt` on strings: the empty string is falsy. -/
def jsOr (s dflt : String) : String := if s = "" then dflt else s

/-- Case-insensitive prefix test (the pattern is given lowercase). -/
def isCIPrefix (pat cs : List Char) : Bool :=
  (cs.take pat.length).map Char.toLower = pat

def openThink : List Char := "<think>".data

def closeThink : List Char := "</think>".data

/-- Index of the first case-insensitive occurrence of `pat`. -/
def findCI (pat : List Char) : List Char → Option Nat
  | [] => if isCIPrefix pat [] then some 0 else none
  | c :: rest =>
    if isCIPrefix pat (c :: rest) then some 0
    else (findCI pat rest).map (· + 1)

/-- One global pass of `replace(/<think>[\s\S]*?<\/think>/gi, '')`: at each
position, if an opening tag starts here and a closing tag follows, drop
everything up to and including the nearest closing tag (non-greedy body) and
continue after it; otherwise keep the character.  `fuel` bounds the
recursion; each step consumes at least one character, so `cs.length` fuel is
always enough. -/
def stripThinkFuel : Nat → List Char → List Char
  | 0, cs => cs
  | _ + 1, [] => []
  | fuel + 1, c :: rest =>
    if isCIPrefix openThink (c :: rest) then
      match findCI closeThink ((c :: rest).drop openThink.length) with
      | some k =>
        stripThinkFuel fuel
          ((c :: rest).drop (openThink.length + k + closeThink.length))
      | none => c :: stripThinkFuel fuel rest
    else c :: stripThinkFuel fuel rest

def stripThinkData (cs : List Char) : List Char := stripThinkFuel cs.length cs

def stripThink (s : String) : String := String.mk (stripThinkData s.data)

def backquote : Char := Char.ofNat 96

def jsonChars : List Char := "json".data

/-- One global pass of `replace(/```(?:json)?\s*/gi, '')` (with
`allowJson = true`) or of `replace(/```\s*/gi, '')` (with
`allowJson = false`): three backquotes, an optional case-insensitive `json`,
and any following whitespace run are dropped. -/
def fencePass (allowJson : Bool) : Nat → List Char → List Char
  | 0, cs => cs
  | _ + 1, [] => []
  | fuel + 1, c :: rest =>
    if c = backquote ∧ rest.take 2 = [backquote, backquote] then
      let afterTicks := rest.drop 2
      let afterJson :=
        if allowJson ∧ isCIPrefix jsonChars afterTicks then afterTicks.drop 4
        else afterTicks
      fencePass allowJson fuel (afterJson.dropWhile isJsWs)
    else c :: fencePass allowJson fuel rest

/-- The cleanup `extractEntities` applies to the model message before
locating the JSON array: default a falsy message to `'[]'`, trim, strip
reasoning tags, strip code fences (both replaces), trim again. -/
def cleanResponse (message : String) : String :=
  let r0 := jsTrim (jsOr message "[]")
  let r1 := stripThinkData r0.data
  let r2 := fencePass true r1.length r1
  let r3 := fencePass false r2.length r2
  jsTrim (String.mk r3)

/-- Model of `s.indexOf(t)` for a single character: index of the first occurrence. -/
def charIndexOf : List Char → Char → Option Nat
  | [], _ => none
  | c :: rest, t => if c = t then some 0 else (charIndexOf rest t).map (· + 1)

/-- Model of `s.lastIndexOf(t)` for a single character. -/
def charLastIndexOf (cs : List Char) (t : Char) : Option Nat :=
  match charIndexOf cs.reverse t with
  | none => none
  | some k => some (cs.length - 1 - k)

/-- The bracket-delimited slice `responseText.substring(firstBracket,
lastBracket + 1)`, available only when `indexOf('[')` and `lastIndexOf(']')`
both succeed with `firstBracket < lastBracket` (the source returns `[]` on
`first === -1 || last === -1 || first >= last`). -/
def bracketSlice (s : String) : Option String :=
  match charIndexOf s.data '[', charLastIndexOf s.data ']' with
  | some fi, some li =>
    if fi < li then some (String.mk ((s.data.drop fi).take (li + 1 - fi)))
    else none
  | _, _ => none

/-- JSON values as produced by `JSON.parse`. -/
inductive Json where
  | null
  | bool (b : Bool)
  | num (n : Int)
  | str (s : String)
  | arr (elems : List Json)
  | obj (fields : List (String × Json))

/-- Object field access; `JSON.parse` keeps the last duplicate key. -/
def jsonField (fields : List (String × Json)) (key : String) : Option Json :=
  (fields.reverse.find? (fun p => p.1 = key)).map (fun p => p.2)

structure Entity where
  text : String
  type : String
  deriving Repr, DecidableEq

/-- The element validation of `extractEntities`: an object whose `text` is a
string with non-empty trim and whose uppercased `type` is one of `PERSON`,
`ORG`, `LOCATION`; the kept entity is `{text: text.trim(), type:
type.toUpperCase()}`. -/
def validEntity : Json → Option Entity
  | .obj fields =>
    match jsonField fields "text", jsonField fields "type" with
    | some (.str t), some (.str ty) =>
      if 0 < (jsTrim t).length ∧
          (ty.toUpper = "PERSON" ∨ ty.toUpper = "ORG" ∨ ty.toUpper = "LOCATION")
      then some ⟨jsTrim t, ty.toUpper⟩
      else none
    | _, _ => none
  | _ => none

/-- The response-processing tail of `extractEntities`: clean the message,
locate the bracket-delimited slice (no slice ⇒ `[]`), `JSON.parse` it (a
throw, modelled as `none`, is caught and yields `[]`), reject non-arrays,
validate elements, cap at 50. -/
def extractEntitiesFromResponse (parseJson : String → Option Json)
    (message : String) : List Entity :=
  match bracketSlice (cleanResponse message) with
  | none => []
  | some sl =>
    match parseJson sl with
    | none => []
    | some (.arr elems) => (elems.filterMap validEntity).take 50
    | some _ => []

/-! ### The cleanup pipeline only deletes characters -/

theorem jsTrimData_sublist (cs : List Char) :
    List.Sublist (jsTrimData cs) cs := by
  unfold jsTrimData
  have h1 : List.Sublist ((cs.dropWhile isJsWs).reverse.dropWhile isJsWs)
      (cs.dropWhile isJsWs).reverse := List.dropWhile_sublist _
  have h2 := List.reverse_sublist.mpr h1
  rw [List.reverse_reverse] at h2
  exact h2.trans (List.dropWhile_sublist _)

theorem stripThinkFuel_sublist :
    ∀ (fuel : Nat) (cs : List Char), List.Sublist (stripThinkFuel fuel cs) cs := by
  intro fuel
  induction fuel with
  | zero => intro cs; exact List.Sublist.refl cs
  | succ f ih =>
    intro cs
    cases cs with
    | nil => exact List.Sublist.refl []
    | cons c rest =>
      simp only [stripThinkFuel]
      split
      · split
        · exact (ih _).trans (List.drop_sublist _ _)
        · exact List.Sublist.cons₂ c (ih rest)
      · exact List.Sublist.cons₂ c (ih rest)

theorem fencePass_sublist (b : Bool) :
    ∀ (fuel : Nat) (cs : List Char), List.Sublist (fencePass b fuel cs) cs := by
  intro fuel
  induction fuel with
  | zero => intro cs; exact List.Sublist.refl cs
  | succ f ih =>
    intro cs
    cases cs with
    | nil => exact List.Sublist.refl []
    | cons c rest =>
      simp only [fencePass]
      split
      · have hrest : ∀ l : List Char, List.Sublist l (rest.drop 2) →
            List.Sublist (fencePass b f (l.dropWhile isJsWs)) (c :: rest) := by
          intro l hl
          refine ((ih _).trans ((List.dropWhile_sublist _).trans hl)).trans ?_
          exact (List.drop_sublist _ _).trans (List.sublist_cons_self c rest)
        split
        · exact hrest _ (List.drop_sublist _ _)
        · exact hrest _ (List.Sublist.refl _)
      · exact List.Sublist.cons₂ c (ih rest)

theorem charIndexOf_eq_none (cs : List Char) (t : Char) (h : t ∉ cs) :
    charIndexOf cs t = none := by
  induction cs with
  | nil => rfl
  | cons c rest ih =>
    simp only [List.mem_cons, not_or] at h
    have hct : ¬ c = t := fun hc => h.1 hc.symm
    simp only [charIndexOf, if_neg hct, ih h.2, Option.map_none']

theorem charLastIndexOf_eq_none (cs : List Char) (t : Char) (h : t ∉ cs) :
    charLastIndexOf cs t = none := by
  unfold charLastIndexOf
  rw [charIndexOf_eq_none _ _ (by simpa using h)]

/-- Cleaning a non-empty message only removes characters. -/
theorem cleanResponse_sublist (message : String) (hne : message ≠ "") :
    List.Sublist (cleanResponse message).data message.data := by
  unfold cleanResponse
  simp only [jsOr, if_neg hne]
  have h0 : List.Sublist (jsTrim message).data message.data :=
    jsTrimData_sublist _
  have h1 := stripThinkFuel_sublist (jsTrim message).data.length (jsTrim message).data
  have h2 := fencePass_sublist true
    (stripThinkData (jsTrim message).data).length
    (stripThinkData (jsTrim message).data)
  have h3 := fencePass_sublist false
    (fencePass true (stripThinkData (jsTrim message).data).length
      (stripThinkData (jsTrim message).data)).length
    (fencePass true (stripThinkData (jsTrim message).data).length
      (stripThinkData (jsTrim message).data))
  exact (jsTrimData_sublist _).trans (h3.trans (h2.trans (h1.trans h0)))

/-! ## Claim C8: `extractEntities` is best effort -/

/-- C8: the structured-output cleanup of `extractEntities` never raises (it
is a total function) and returns the empty entity list whenever the
non-empty raw output contains no bracket pair — and, more generally,
whenever no bracket-delimited slice is found after cleaning — or the located
slice fails to parse as JSON. -/
theorem extractEntities_best_effort (parseJson : String → Option Json)
    (message : String) :
    (message ≠ "" → ('[' ∉ message.data ∨ ']' ∉ message.data) →
        extractEntitiesFromResponse parseJson message = [])
    ∧ (∀ sl, bracketSlice (cleanResponse message) = some sl →
        parseJson sl = none → extractEntitiesFromResponse parseJson message = [])
    ∧ (bracketSlice (cleanResponse message) = none →
        extractEntitiesFromResponse parseJson message = []) := by
  refine ⟨?_, ?_, ?_⟩
  · intro hne hbr
    have hsub := cleanResponse_sublist message hne
    have hnone : bracketSlice (cleanResponse message) = none := by
      unfold bracketSlice
      rcases hbr with h | h
      · rw [charIndexOf_eq_none _ _ (fun hm => h (hsub.subset hm))]
      · rw [charLastIndexOf_eq_none _ _ (fun hm => h (hsub.subset hm))]
        rcases charIndexOf (cleanResponse message).data '[' with _ | fi <;> rfl
    unfold extractEntitiesFromResponse
    rw [hnone]
  · intro sl hsl hparse
    unfold extractEntitiesFromResponse
    simp only [hsl, hparse]
  · intro hnone
    unfold extractEntitiesFromResponse
    rw [hnone]

/-- C8, witness: a bracket-free prose reply and a reply whose bracket slice
fails to parse both yield the empty entity list. -/
theorem extractEntities_best_effort_witness :
    extractEntitiesFromResponse (fun _ => none) "no entities found." = [] ∧
    extractEntitiesFromResponse (fun _ => none) "Sure [oops]" = [] :=
  ⟨(extractEntities_best_effort (fun _ => none) "no entities found.").1
      (by decide) (by decide),
   (extractEntities_best_effort (fun _ => none) "Sure [oops]").2.1
      "[oops]" (by decide) rfl⟩

/-! ## Claim C10: `chatWithPerplexity` / `generateAnswer` sanitization -/

def braceChar : Char := Char.ofNat 123

/-- The fixed fallback message of `chatWithPerplexity`. -/
def chatFallback : String := "Sorry, I couldn\x27t generate a response."

/-- The extra slicing applied in JSON mode (`forceNoThinking`): when both a
square bracket and a brace occur, slice from `Math.max` of the two indices
(indices of absent characters become `Infinity`, so the slice only happens
when both are present) and trim. -/
def jsonModeSlice (s : String) : String :=
  match charIndexOf s.data '[', charIndexOf s.data braceChar with
  | some i, some j => jsTrim (String.mk (s.data.drop (max i j)))
  | _, _ => s

/-- The sanitized `message` field `chatWithPerplexity` returns, as a function
of the provider content `data.choices?.[0]?.message?.content` (absent or
falsy content defaults to `'No response generated'`): strip all reasoning
tags, trim, optionally apply the JSON-mode slice, and fall back to the fixed
apology when nothing remains. -/
def perplexityMessage (content : Option String) (forceNoThinking : Bool) :
    String :=
  let fullResponse := jsOr (content.getD "") "No response generated"
  let m1 := jsTrim (stripThink fullResponse)
  let m2 := if forceNoThinking then jsonModeSlice m1 else m1
  jsOr m2 chatFallback

/-- The answer `generateAnswer` returns on a successful provider call:
`(result.message || fallback).trim()`. -/
def generateAnswerResult (content : Option String) : String :=
  jsTrim (jsOr (perplexityMessage content false) chatFallback)

/-! ### Trimming is idempotent -/

theorem dropWhile_head_false {p : Char → Bool} :
    ∀ {cs : List Char} {x : Char} {t : List Char},
      cs.dropWhile p = x :: t → p x = false := by
  intro cs
  induction cs with
  | nil => intro x t h; simp [List.dropWhile] at h
  | cons c rest ih =>
    intro x t h
    rw [List.dropWhile_cons] at h
    by_cases hc : p c
    · rw [if_pos hc] at h
      exact ih h
    · rw [if_neg hc] at h
      cases h
      simpa using hc

/-- Right trim: drop trailing whitespace. -/
def rtData (cs : List Char) : List Char := (cs.reverse.dropWhile isJsWs).reverse

theorem jsTrimData_eq (cs : List Char) :
    jsTrimData cs = rtData (cs.dropWhile isJsWs) := rfl

theorem rtData_idem (cs : List Char) : rtData (rtData cs) = rtData cs := by
  unfold rtData
  rw [List.reverse_reverse, List.dropWhile_idempotent]

theorem dropWhile_rtData_dropWhile (cs : List Char) :
    (rtData (cs.dropWhile isJsWs)).dropWhile isJsWs =
      rtData (cs.dropWhile isJsWs) := by
  cases ha : cs.dropWhile isJsWs with
  | nil => rfl
  | cons x t =>
    have hx : isJsWs x = false := dropWhile_head_false ha
    unfold rtData
    rw [List.reverse_cons, List.dropWhile_append]
    by_cases he : (t.reverse.dropWhile isJsWs).isEmpty
    · rw [if_pos he]
      simp [List.dropWhile_cons, hx]
    · rw [if_neg he]
      rw [List.reverse_append]
      simp [List.dropWhile_cons, hx]

theorem jsTrim_idem (s : String) : jsTrim (jsTrim s) = jsTrim s := by
  show String.mk (jsTrimData (jsTrimData s.data)) = String.mk (jsTrimData s.data)
  rw [jsTrimData_eq (jsTrimData s.data), jsTrimData_eq s.data,
    dropWhile_rtData_dropWhile, rtData_idem]

/-- Everything `perplexityMessage` can return is already trimmed. -/
theorem perplexityMessage_trimmed (content : Option String) (force : Bool) :
    jsTrim (perplexityMessage content force) =
      perplexityMessage content force := by
  simp only [perplexityMessage]
  set m1 := jsTrim (stripThink (jsOr (content.getD "") "No response generated"))
    with hm1
  set m2 := if force then jsonModeSlice m1 else m1 with hm2
  by_cases h : m2 = ""
  · rw [jsOr, if_pos h]
    decide
  · rw [jsOr, if_neg h]
    have hz : ∃ z, m2 = jsTrim z := by
      rw [hm2]
      cases force with
      | false => exact ⟨_, hm1⟩
      | true =>
        simp only [if_pos trivial, jsonModeSlice]
        rcases charIndexOf m1.data '[' with _ | i
        · exact ⟨_, hm1⟩
        · rcases charIndexOf m1.data braceChar with _ | j
          · exact ⟨_, hm1⟩
          · exact ⟨_, rfl⟩
    rcases hz with ⟨z, hzz⟩
    rw [hzz, jsTrim_idem]

/-- The sanitized message is never the empty string. -/
theorem perplexityMessage_ne_empty (content : Option String) (force : Bool) :
    perplexityMessage content force ≠ "" := by
  simp only [perplexityMessage]
  set m1 := jsTrim (stripThink (jsOr (content.getD "") "No response generated"))
  set m2 := if force then jsonModeSlice m1 else m1
  by_cases h : m2 = ""
  · rw [jsOr, if_pos h]
    decide
  · rw [jsOr, if_neg h]
    exact h

/-- C10: the sanitized message of `chatWithPerplexity` is never empty; when
tag-stripping leaves nothing, the fixed fallback string is returned; and
hence the answer `generateAnswer` produces from the provider content is
never empty either. -/
theorem chat_sanitized_nonempty (content : Option String) (force : Bool) :
    perplexityMessage content force ≠ ""
    ∧ (jsTrim (stripThink (jsOr (content.getD "") "No response generated")) = ""
        → perplexityMessage content force = chatFallback)
    ∧ generateAnswerResult content ≠ "" := by
  refine ⟨perplexityMessage_ne_empty content force, ?_, ?_⟩
  · intro hm1
    simp only [perplexityMessage, hm1]
    cases force <;> decide
  · unfold generateAnswerResult
    rw [jsOr, if_neg (perplexityMessage_ne_empty content false)]
    rw [perplexityMessage_trimmed]
    exact perplexityMessage_ne_empty content false

/-- C10, witness: a provider response consisting only of a reasoning segment
sanitizes to the fixed fallback string. -/
theorem chat_sanitized_nonempty_witness :
    perplexityMessage (some "<think>internal chain</think>") false =
      chatFallback :=
  (chat_sanitized_nonempty (some "<think>internal chain</think>") false).2.1
    (by decide)

/-! ## Claim C3: the `/ask` orchestration of `src/routes/documentRoutes.js`

The handler validates the question, embeds it, calls
`queryEmbeddings(questionEmbedding, userId, 5)`, and — when the returned
match list is empty — responds with a fixed string without calling
`generateAnswer`.  The handler is modelled as a function of the retrieval
result; the generative model is a parameter, and the run records whether it
was invoked. -/

inductive AskResponse where
  | badRequest (message : String)
  | ok (answer : String)
  deriving Repr, DecidableEq

structure AskRun where
  response : AskResponse
  modelCalled : Bool
  deriving Repr, DecidableEq

/-- The fixed no-information answer of the `/ask` route. -/
def noInfoAnswer : String :=
  "I couldn\x27t find any relevant information in your documents to answer that question."

/-- Model of `relevantChunks.join('\n\n')`: the route joins the match objects
directly, so JavaScript stringifies each object to `[object Object]`. -/
def joinChunks (ms : List RetrievalMatch) : String :=
  String.intercalate "\n\n" (ms.map (fun _ => "[object Object]"))

/-- The `/ask` handler: reject a falsy question with 400; on zero retrieved
matches answer with the fixed string and do not invoke the model; otherwise
invoke the generative model on the question and joined context. -/
def askRoute (gen : String → String → String) (question : String)
    (retrieved : List RetrievalMatch) : AskRun :=
  if question = "" then
    ⟨.badRequest "Question is required.", false⟩
  else if retrieved.length = 0 then
    ⟨.ok noInfoAnswer, false⟩
  else
    ⟨.ok (gen question (joinChunks retrieved)), true⟩

/-- C3: whenever retrieval produced an empty match list (and the question
passed validation), the `/ask` route returns the fixed no-information answer
and the generative model is not invoked. -/
theorem askRoute_empty_matches (gen : String → String → String)
    (question : String) (hq : question ≠ "") :
    askRoute gen question [] = ⟨.ok noInfoAnswer, false⟩ := by
  unfold askRoute
  rw [if_neg hq]
  rfl

/-- C3, witness: a concrete question with zero matches yields the fixed
answer without a model call. -/
theorem askRoute_empty_matches_witness :
    askRoute (fun _ _ => "model answer") "What is in my documents?" [] =
      ⟨.ok noInfoAnswer, false⟩ :=
  askRoute_empty_matches (fun _ _ => "model answer")
    "What is in my documents?" (by decide)

end DeepSearch
